import Mathlib

/-!
# Verification of the Oulipo constraint engine (perseus, `src-tauri/src/oulipo`)

A shallow embedding of the Oulipo constraint-checking core: the shared
result/violation data model (`types.rs`), the utility layer (`utils.rs`),
the constraint algorithms (`constraints/lipogram.rs`, `univocalic.rs`,
`prisoners.rs`, `snowball.rs`, `n_plus_7.rs`), the validators
(`validators.rs`), the dictionary (`dictionary.rs`), the factory registry
(`registry.rs`) and workflow execution (`mod.rs`).

Modelling conventions:
* Rust `&str` is Lean `String`; character positions are character offsets
  (the source tracks UTF-8 byte offsets via `char_indices`; both coincide
  on ASCII, and every claim below is offset-metric independent).
* Rust `usize`/`i32` become `Nat`/`Int`; where the source performs
  `i32` wrapping arithmetic or an `as usize` cast, the wrap is explicit.
* A Rust panic (out-of-bounds indexing) is `Except.error`; functions whose
  `anyhow::Result` is `Ok` on every input are embedded as total functions.
* `serde_json::Value` is the minimal `Json` inductive below; the one
  floating-point metadata entry (`replacement_rate` in the N+7 transform)
  is not representable and is omitted from the embedded metadata object —
  no claim refers to it.
-/

namespace Oulipo

/-- Minimal model of `serde_json::Value` (numbers restricted to integers,
which covers every metadata value the embedded code produces). -/
inductive Json where
  | null : Json
  | bool : Bool → Json
  | num : Int → Json
  | str : String → Json
  | arr : List Json → Json
  | obj : List (String × Json) → Json
deriving Repr

/-- `serde_json` `Value::index` by key: a lookup on objects, `Null` on a
missing key or a non-object (the behaviour of `value["key"]` in Rust). -/
def Json.index : Json → String → Json
  | .obj kvs, k =>
    match kvs.find? (fun kv => kv.1 = k) with
    | some kv => kv.2
    | none => .null
  | _, _ => .null

/-- `serde_json` `Value::as_str`. -/
def Json.asStr : Json → Option String
  | .str s => some s
  | _ => none

/-- `Violation` from `oulipo/types.rs`. -/
structure Violation where
  position : Nat
  length : Nat
  issue : String
  suggestion : Option String
deriving Repr, DecidableEq

/-- `ConstraintResult` from `oulipo/types.rs`. -/
structure ConstraintResult where
  success : Bool
  result : Option String
  violations : List Violation
  suggestions : List String
  metadata : Json
deriving Repr

/-- `ValidationConfig` from `oulipo/types.rs`. -/
structure ValidationConfig where
  min_length : Option Nat
  max_length : Option Nat
  min_words : Option Nat
  max_words : Option Nat
deriving Repr, DecidableEq

/-- `ConstraintWorkflowConfig` from `oulipo/builder.rs`. -/
structure ConstraintWorkflowConfig where
  constraints : List (String × Json)
  validation_config : ValidationConfig
deriving Repr

/-- `WorkflowResult` from `oulipo/builder.rs`. -/
structure WorkflowResult where
  success : Bool
  constraint_results : List ConstraintResult
  summary : String
deriving Repr

/-- `OulipoError` from `oulipo/errors.rs` (the variants the embedded core
can produce). -/
inductive OulipoError where
  | InvalidConfig : String → OulipoError
  | ValidationError : String → OulipoError
deriving Repr, DecidableEq

/-! ## Utility layer (`oulipo/utils.rs`) -/

/-- `utils::VOWELS`. -/
def VOWELS : String := "aeiou"

/-- `utils::VOWELS_UPPER`. -/
def VOWELS_UPPER : String := "AEIOU"

/-- Rust `str::to_lowercase`, character-wise (Rust's Unicode full case
folding and Lean's `Char.toLower` agree on ASCII, which covers every use
in the embedded code). -/
def strToLower (s : String) : String := String.mk (s.data.map Char.toLower)

/-- Rust `str::replace(pat, "")` for a single-character pattern: removes
every occurrence of the character. -/
def remove_char (s : String) (c : Char) : String :=
  String.mk (s.data.filter (fun d => d ≠ c))

/-- `utils::is_vowel`: `VOWELS.contains(ch.to_lowercase().next().unwrap_or(q)) || VOWELS_UPPER.contains(ch)`
(a one-character containment test, taken on the character list). -/
def is_vowel (ch : Char) : Bool :=
  VOWELS.data.contains ch.toLower || VOWELS_UPPER.data.contains ch

/-- The segments of a character list split at every whitespace character
(Rust `str::split(char::is_whitespace)`): empty segments are kept, one per
separator boundary. `cur` is the current segment accumulated in reverse. -/
def wsSegments : List Char → List Char → List (List Char)
  | [], cur => [cur.reverse]
  | c :: cs, cur =>
    if c.isWhitespace then cur.reverse :: wsSegments cs []
    else wsSegments cs (c :: cur)

/-- Rust `str::split_whitespace` on a character list: split at whitespace
and discard the empty segments (the standard library implements
`split_whitespace` exactly as `split(IsWhitespace).filter(IsNotEmpty)`). -/
def splitWS (l : List Char) : List (List Char) :=
  (wsSegments l []).filter (fun w => !w.isEmpty)

/-- Rust `str::split_whitespace` on a `String`. -/
def splitWhitespace (s : String) : List String :=
  (splitWS s.data).map (fun w => String.mk w)

/-! ## Lipogram (`oulipo/constraints/lipogram.rs`) -/

/-- `lipogram::generate_suggestions`. -/
def lipogram_generate_suggestions (forbidden_letter : String) : List String :=
  [ s!"Avoid words containing \x27{forbidden_letter}\x27",
    "Use synonyms without the forbidden letter",
    "Restructure sentences to eliminate problematic words",
    "Consider alternative phrasings" ]

/-- `lipogram::check`: scan `char_indices`, one length-1 violation per
character whose lowercase form equals the lowercased forbidden letter. -/
def lipogram_check (text : String) (forbidden_letter : String) : ConstraintResult :=
  let forbidden := strToLower forbidden_letter
  let violations := text.data.enum.filterMap (fun pc =>
    if String.mk [pc.2.toLower] = forbidden then
      some { position := pc.1, length := 1,
             issue := s!"Forbidden letter \x27{forbidden_letter}\x27 found",
             suggestion := some "Replace with alternative word" }
    else none)
  let success := violations.isEmpty
  let suggestions :=
    if success then ["Perfect lipogram!"]
    else lipogram_generate_suggestions forbidden
  let violation_count := violations.length
  { success := success,
    result := some (if success then "Valid lipogram" else "Violations found"),
    violations := violations,
    suggestions := suggestions,
    metadata := .obj [("forbidden_letter", .str forbidden_letter),
                      ("violation_count", .num violation_count),
                      ("text_length", .num text.length)] }

/-! ## Univocalic (`oulipo/constraints/univocalic.rs`) -/

/-- `univocalic::generate_univocalic_suggestions`. -/
def generate_univocalic_suggestions (allowed_vowel : String) : List String :=
  if allowed_vowel = "a" then
    [ "Use words like: at, and, has, that, man, can",
      "A constraint that can make grand narratives" ]
  else if allowed_vowel = "e" then
    [ "Use words like: the, when, then, these, never",
      "Create sentences where every letter helps" ]
  else if allowed_vowel = "i" then
    [ "Use words like: in, is, it, this, with, kind",
      "Think minimal - it is tricky writing" ]
  else if allowed_vowel = "o" then
    [ "Use words like: on, do, go, of, from, long",
      "Conform to strong word contortions" ]
  else if allowed_vowel = "u" then
    [ "Use words like: up, but, just, much, run",
      "Construct full turns - unusually fun" ]
  else
    [ s!"Focus on words containing only \x27{allowed_vowel}\x27",
      "Use a dictionary to find suitable words" ]

/-- `univocalic::check_univocalic`: one length-1 violation at each vowel
whose lowercase form differs from the allowed vowel's lowercase form. -/
def check_univocalic (text : String) (allowed_vowel : Char) : ConstraintResult :=
  let allowed := String.mk [allowed_vowel.toLower]
  let violations := text.data.enum.filterMap (fun pc =>
    if pc.2.isAlpha && is_vowel pc.2 then
      let lower_ch := String.mk [pc.2.toLower]
      if lower_ch ≠ allowed then
        some { position := pc.1, length := 1,
               issue := s!"Vowel \x27{pc.2}\x27 is not allowed (only \x27{allowed_vowel}\x27 permitted)",
               suggestion := some s!"Replace with word containing only \x27{allowed_vowel}\x27" }
      else none
    else none)
  let success := violations.isEmpty
  let suggestions :=
    if success then [s!"Perfect univocalic using \x27{allowed_vowel}\x27!"]
    else generate_univocalic_suggestions allowed
  let violation_count := violations.length
  let forbidden_vowels := remove_char VOWELS allowed_vowel.toLower
  { success := success,
    result := some (if success then s!"Valid univocalic using \x27{allowed_vowel}\x27"
                    else s!"{violation_count} forbidden vowels found"),
    violations := violations,
    suggestions := suggestions,
    metadata := .obj [("allowed_vowel", .str (String.mk [allowed_vowel])),
                      ("forbidden_vowels", .str forbidden_vowels),
                      ("violation_count", .num violation_count),
                      ("text_length", .num text.length)] }

/-- `univocalic::check` (the free function): delegates to `check_univocalic`. -/
def univocalic_check (text : String) (allowed_vowel : Char) : ConstraintResult :=
  check_univocalic text allowed_vowel

/-- `UnivocalicConstraint::new`: rejects a non-vowel with `InvalidConfig`
before any text is checked. The constructed constraint is represented by
its one configuration datum, the allowed vowel. -/
def UnivocalicConstraint.new (allowed_vowel : Char) : Except OulipoError Char :=
  if !is_vowel allowed_vowel then
    .error (.InvalidConfig s!"\x27{allowed_vowel}\x27 is not a valid vowel")
  else
    .ok allowed_vowel

/-! ## Prisoner's constraint (`oulipo/constraints/prisoners.rs`) -/

/-- `prisoners::generate_prisoners_suggestions`. -/
def generate_prisoners_suggestions : List String :=
  [ "Use only letters without loops: c, f, h, i, j, k, l, m, n, s, t, u, v, w, x, y, z",
    "Avoid letters: a, b, d, e, g, o, p, q, r",
    "Focus on words with straight lines and simple curves",
    "Think of letters that could be drawn with sticks" ]

/-- `prisoners::check`: one length-1 violation at each alphabetic character
whose lowercase form is outside the loop-free set. -/
def prisoners_check (text : String) : ConstraintResult :=
  let allowed_letters : String := "cfhijklmnstuvwxyz"
  let violations := text.data.enum.filterMap (fun pc =>
    if pc.2.isAlpha then
      if !(allowed_letters.data.contains pc.2.toLower) then
        some { position := pc.1, length := 1,
               issue := s!"Letter \x27{pc.2}\x27 contains loops and is forbidden",
               suggestion := some "Replace with a letter without loops" }
      else none
    else none)
  let success := violations.isEmpty
  let suggestions :=
    if success then ["Perfect prisoner\x27s constraint text!"]
    else generate_prisoners_suggestions
  let violation_count := violations.length
  { success := success,
    result := some (if success then "Valid prisoner\x27s constraint text"
                    else s!"{violation_count} forbidden letters found"),
    violations := violations,
    suggestions := suggestions,
    metadata := .obj [("allowed_letters", .str allowed_letters),
                      ("forbidden_letters", .str "abdegopqr"),
                      ("violation_count", .num violation_count),
                      ("text_length", .num text.length)] }

/-! ## Snowball (`oulipo/constraints/snowball.rs`) -/

/-- `snowball::generate_snowball_suggestions`. -/
def generate_snowball_suggestions : List String :=
  [ "Start with single-letter words (I, a)",
    "Use progressively longer synonyms",
    "Consider compound words for longer positions",
    "Plan the sentence structure in advance" ]

/-- The violation record `snowball::check` pushes for word `i` (0-based)
at running offset `pos`: the span is the word itself (`position = pos`,
`length` = the word's length), and the messages name the expected length
`i + 1` and the actual length. -/
def snowball_violation (i pos : Nat) (w : String) : Violation :=
  let expected_length := i + 1
  let actual_length := w.length
  { position := pos, length := w.length,
    issue := s!"Word {expected_length} should be {expected_length} letters, but is {actual_length}",
    suggestion := some s!"Replace with a {expected_length}-letter word" }

/-- The loop body of `snowball::check`: the accumulator carries the running
`position` counter and the violations collected so far; each word advances
the counter by its length plus one (the assumed single separating space). -/
def snowball_step (acc : Nat × List Violation) (iw : Nat × String) :
    Nat × List Violation :=
  let position := acc.1
  let i := iw.1
  let w := iw.2
  let expected_length := i + 1
  let actual_length := w.length
  let vs :=
    if actual_length ≠ expected_length then
      acc.2 ++ [snowball_violation i position w]
    else acc.2
  (position + w.length + 1, vs)

/-- `snowball::check`: word `i` (0-based) must have length `i + 1`. -/
def snowball_check (text : String) : ConstraintResult :=
  let words := splitWhitespace text
  let violations := (words.enum.foldl snowball_step (0, [])).2
  let success := violations.isEmpty
  let suggestions :=
    if success then ["Perfect snowball pattern!"]
    else generate_snowball_suggestions
  let violation_count := violations.length
  { success := success,
    result := some (if success then "Valid snowball pattern"
                    else s!"{violation_count} violations found"),
    violations := violations,
    suggestions := suggestions,
    metadata := .obj [("word_count", .num words.length),
                      ("violation_count", .num violation_count),
                      ("expected_pattern", .arr ((List.range words.length).map (fun i => .num (i + 1)))),
                      ("actual_lengths", .arr (words.map (fun w => .num w.length)))] }

/-- Recursive closed form of the snowball loop, used to reason about
`snowball_check`: word-by-word, carrying the 0-based index `n` and the
running offset `pos`. -/
def snow_viols : List String → Nat → Nat → List Violation
  | [], _, _ => []
  | w :: ws, n, pos =>
    (if w.length ≠ n + 1 then [snowball_violation n pos w] else []) ++
      snow_viols ws (n + 1) (pos + w.length + 1)

/-! ## Validators (`oulipo/validators.rs`) -/

/-- `validators::validate_text_length`. -/
def validate_text_length (text : String) (min_length : Nat) (max_length : Option Nat) :
    ConstraintResult :=
  let text_length := text.length
  let short_violations :=
    if text_length < min_length then
      let missing := min_length - text_length
      [{ position := 0, length := text_length,
         issue := s!"Text too short: {text_length} characters (minimum {min_length})",
         suggestion := some s!"Add {missing} more characters" : Violation }]
    else []
  let long_violations :=
    match max_length with
    | some max_len =>
      if text_length > max_len then
        let excess := text_length - max_len
        [{ position := max_len, length := excess,
           issue := s!"Text too long: {text_length} characters (maximum {max_len})",
           suggestion := some s!"Remove {excess} characters" : Violation }]
      else []
    | none => []
  let violations := short_violations ++ long_violations
  let is_empty := violations.isEmpty
  { success := is_empty,
    result := some s!"Text length: {text_length} characters",
    violations := violations,
    suggestions :=
      if is_empty then ["Text length is within bounds"]
      else ["Adjust text length to meet requirements"],
    metadata := .obj [("constraint_type", .str "length_validation"),
                      ("current_length", .num text_length),
                      ("min_length", .num min_length),
                      ("max_length", match max_length with
                                     | some m => .num m
                                     | none => .null)] }

/-- `validators::validate_word_count`. -/
def validate_word_count (text : String) (min_words : Nat) (max_words : Option Nat) :
    ConstraintResult :=
  let word_count := (splitWhitespace text).length
  let few_violations :=
    if word_count < min_words then
      let missing := min_words - word_count
      [{ position := 0, length := text.length,
         issue := s!"Too few words: {word_count} (minimum {min_words})",
         suggestion := some s!"Add {missing} more words" : Violation }]
    else []
  let many_violations :=
    match max_words with
    | some maxw =>
      if word_count > maxw then
        let excess := word_count - maxw
        [{ position := 0, length := text.length,
           issue := s!"Too many words: {word_count} (maximum {maxw})",
           suggestion := some s!"Remove {excess} words" : Violation }]
      else []
    | none => []
  let violations := few_violations ++ many_violations
  let is_empty := violations.isEmpty
  { success := is_empty,
    result := some s!"Word count: {word_count}",
    violations := violations,
    suggestions :=
      if is_empty then ["Word count is within bounds"]
      else ["Adjust word count to meet requirements"],
    metadata := .obj [("constraint_type", .str "word_count_validation"),
                      ("current_words", .num word_count),
                      ("min_words", .num min_words),
                      ("max_words", match max_words with
                                    | some m => .num m
                                    | none => .null)] }

/-! ## Dictionary (`oulipo/dictionary.rs`) and N+7 (`oulipo/constraints/n_plus_7.rs`) -/

/-- The fixed vocabulary of `Dictionary::get_n_plus_word` (40 words). -/
def dictionaryWords : List String :=
  [ "the", "quick", "brown", "fox", "jumps", "over", "lazy", "dog",
    "and", "runs", "through", "forest", "with", "great", "speed",
    "while", "birds", "sing", "in", "trees", "above", "ground",
    "where", "flowers", "bloom", "during", "spring", "season",
    "creating", "beautiful", "scenes", "that", "inspire", "writers",
    "to", "craft", "poems", "using", "various", "techniques" ]

/-- Two's-complement wrap of an integer into the `i32` range (release-mode
Rust semantics of `index as i32 + offset`). -/
def i32_wrap (x : Int) : Int := (x + 2 ^ 31) % 2 ^ 32 - 2 ^ 31

/-- Rust `as usize` on an `i32` value: non-negative values unchanged,
negative values wrap modulo `2^64`. -/
def usize_of_i32 (x : Int) : Nat := (if x < 0 then 2 ^ 64 + x else x).toNat

/-- `Dictionary::get_n_plus_word`. The source computes
`((index as i32 + offset) % words.len() as i32) as usize` and indexes the
vocabulary with it; `Except.error` models the panic of an out-of-bounds
index. A word absent from the vocabulary maps to `"{word}+{offset}"`. -/
def get_n_plus_word (word : String) (offset : Int) : Except String (Option String) :=
  let word_lower := strToLower word
  match dictionaryWords.findIdx? (fun w => w = word_lower) with
  | some index =>
    let new_index := usize_of_i32 (Int.tmod (i32_wrap ((index : Int) + offset))
      (dictionaryWords.length : Int))
    match dictionaryWords[new_index]? with
    | some w => .ok (some w)
    | none => .error s!"index out of bounds: {new_index}"
  | none => .ok (some (word ++ "+" ++ toString offset))

/-- The loop of `n_plus_7::transform`: transforms the words left to right,
counting replacements; a dictionary panic aborts the whole transform. The
`none` fallback (push the word unchanged) mirrors the source's `else`
branch, which is unreachable because `get_n_plus_word` never returns
`None`. -/
def n_plus_7_words (offset : Int) :
    List String → Except String (List String × Nat)
  | [] => .ok ([], 0)
  | w :: ws => do
    let rest ← n_plus_7_words offset ws
    match ← get_n_plus_word w offset with
    | some replacement => .ok (replacement :: rest.1, rest.2 + 1)
    | none => .ok (w :: rest.1, rest.2)

/-- `n_plus_7::transform`: always `success = true` with no violations; the
payload is the transformed text. (The floating-point `replacement_rate`
metadata entry is omitted, see the module docstring.) -/
def n_plus_7_transform (text : String) (offset : Int) :
    Except String ConstraintResult := do
  let words := splitWhitespace text
  let word_count := words.length
  let tr ← n_plus_7_words offset words
  let result_text := String.intercalate " " tr.1
  .ok { success := true,
        result := some result_text,
        violations := [],
        suggestions := [ "Try different offset values for varied results",
                         "Focus on noun-heavy text for better transformation" ],
        metadata := .obj [("offset", .num offset),
                          ("original_words", .num word_count),
                          ("replacements_made", .num tr.2)] }

/-! ## Registry (`oulipo/registry.rs`) -/

/-- A constructed `Box<dyn Constraint>`: the only factory the registry
registers is `UnivocalicFactory`, so an instance is a univocalic
constraint carrying its allowed vowel. -/
inductive ConstraintInst where
  | univocalic : Char → ConstraintInst
deriving Repr, DecidableEq

/-- `Constraint::check` via dynamic dispatch on the constructed instance
(`impl Constraint for UnivocalicConstraint` delegates to
`check_univocalic`). -/
def ConstraintInst.check (c : ConstraintInst) (text : String) : ConstraintResult :=
  match c with
  | .univocalic v => check_univocalic text v

/-- `UnivocalicFactory::create`: requires `config["allowed_vowel"]` to be a
string with a first character, then defers to `UnivocalicConstraint::new`. -/
def UnivocalicFactory.create (config : Json) : Except OulipoError ConstraintInst :=
  match ((config.index "allowed_vowel").asStr.bind (fun s => s.data.head?)) with
  | none => .error (.InvalidConfig "Missing \x27allowed_vowel\x27 in config")
  | some vowel => (UnivocalicConstraint.new vowel).map ConstraintInst.univocalic

/-- The constraint names registered by `ConstraintRegistry::new` (only
`UnivocalicFactory`). -/
def registry_registered_names : List String := ["univocalic"]

/-- `ConstraintRegistry::create_constraint` for the registry built by
`ConstraintRegistry::new`: dispatch on the registered factory names. -/
def create_constraint (name : String) (config : Json) : Except OulipoError ConstraintInst :=
  if name = "univocalic" then UnivocalicFactory.create config
  else .error (.InvalidConfig s!"Unknown constraint: {name}")

/-! ## Service facade (`oulipo/mod.rs`) -/

/-- `OulipoService::check_univocalic`: takes the vowel as a string; an empty
string yields the fixed invalid-parameter failure result, otherwise the
first character is checked. -/
def service_check_univocalic (text : String) (vowel : String) : ConstraintResult :=
  match vowel.data.head? with
  | some vowel_char => univocalic_check text vowel_char
  | none =>
    { success := false,
      result := none,
      violations := [{ position := 0, length := 0,
                       issue := "Invalid vowel parameter",
                       suggestion := some "Provide a single vowel character" }],
      suggestions := ["Provide a single vowel character"],
      metadata := .null }

/-- `OulipoService::validate_with_config`: a length validation is produced
only when `min_length` is set (with `max_length` passed along), and a word
count validation only when `min_words` is set. -/
def validate_with_config (text : String) (config : ValidationConfig) :
    List ConstraintResult :=
  (match config.min_length with
   | some min_len => [validate_text_length text min_len config.max_length]
   | none => []) ++
  (match config.min_words with
   | some min_words => [validate_word_count text min_words config.max_words]
   | none => [])

/-- The synthetic failing result that `OulipoService::check_with_workflow`
pushes for an unrecognized constraint name. -/
def unknown_constraint_result (name : String) : ConstraintResult :=
  { success := false,
    result := some s!"Unknown constraint: {name}",
    violations := [],
    suggestions := ["Check constraint name"],
    metadata := .obj [("error", .str "unknown_constraint")] }

/-- One iteration of the constraint loop in
`OulipoService::check_with_workflow`: only the name `"univocalic"` is
recognized; its vowel is read from the config with default `'a'` when the
field is missing, not a string, or empty. -/
def check_workflow_entry (text : String) (name : String) (constraint_config : Json) :
    ConstraintResult :=
  if name = "univocalic" then
    let vowel := ((constraint_config.index "allowed_vowel").asStr.bind
      (fun s => s.data.head?)).getD 'a'
    service_check_univocalic text (String.mk [vowel])
  else
    unknown_constraint_result name

/-- `OulipoService::generate_workflow_summary`. -/
def generate_workflow_summary (results : List ConstraintResult) : String :=
  let total := results.length
  let passed := (results.filter (fun r => r.success)).length
  let failed := total - passed
  if failed = 0 then s!"✅ All {total} constraints satisfied"
  else s!"❌ {failed}/{total} constraints failed"

/-- `OulipoService::check_with_workflow`: named-constraint results in
declaration order, then the validation results, aggregated with AND and a
summary string. (The source's `anyhow::Result` wrapper is `Ok` on every
input — each call it `?`-propagates is total — so the embedding is a total
function.) -/
def check_with_workflow (text : String) (config : ConstraintWorkflowConfig) :
    WorkflowResult :=
  let constraint_results :=
    config.constraints.map (fun nc => check_workflow_entry text nc.1 nc.2) ++
    validate_with_config text config.validation_config
  { success := constraint_results.all (fun r => r.success),
    constraint_results := constraint_results,
    summary := generate_workflow_summary constraint_results }

/-! ## General helper lemmas -/

theorem length_filter_success_partition (l : List ConstraintResult) :
    (l.filter (fun r => r.success)).length +
      (l.filter (fun r => !r.success)).length = l.length := by
  induction l with
  | nil => rfl
  | cons r l ih =>
    cases h : r.success <;> simp only [List.filter_cons, h] <;> simp <;> omega

theorem generate_workflow_summary_spec (rs : List ConstraintResult) :
    generate_workflow_summary rs =
      (let failed := (rs.filter (fun r => !r.success)).length
       let total := rs.length
       if failed = 0 then s!"✅ All {total} constraints satisfied"
       else s!"❌ {failed}/{total} constraints failed") := by
  have h := length_filter_success_partition rs
  have h2 : rs.length - (rs.filter (fun r => r.success)).length =
      (rs.filter (fun r => !r.success)).length := by omega
  unfold generate_workflow_summary
  simp only [h2]

theorem findIdx?_some_lt {α : Type} (p : α → Bool) :
    ∀ (l : List α) (s i : Nat), List.findIdx? p l s = some i → i < s + l.length
  | [], s, i, h => by simp [List.findIdx?] at h
  | a :: l, s, i, h => by
    rw [List.findIdx?_cons] at h
    by_cases hp : p a = true
    · rw [if_pos hp] at h
      injection h with h
      simp only [List.length_cons]
      omega
    · rw [if_neg hp] at h
      have := findIdx?_some_lt p l (s + 1) i h
      simp only [List.length_cons]
      omega

theorem i32_wrap_eq_self {x : Int} (h0 : 0 ≤ x) (h1 : x < 2 ^ 31) :
    i32_wrap x = x := by
  unfold i32_wrap
  have h : (x + 2 ^ 31) % 2 ^ 32 = x + 2 ^ 31 :=
    Int.emod_eq_of_lt (by omega) (by omega)
  omega

theorem get_n_plus_word_ok (w : String) (offset : Int)
    (h0 : 0 ≤ offset) (h1 : offset + 39 < 2 ^ 31) :
    ∃ s, get_n_plus_word w offset = .ok (some s) := by
  rcases hidx : List.findIdx? (fun x => x = strToLower w) dictionaryWords with _ | index
  · exact ⟨w ++ "+" ++ toString offset, by simp [get_n_plus_word, hidx]⟩
  · have hlen : dictionaryWords.length = 40 := rfl
    have hlt : index < 40 := by
      have h := findIdx?_some_lt _ dictionaryWords 0 index hidx
      rw [hlen] at h
      omega
    have h39 : (index : Int) ≤ 39 := by exact_mod_cast Nat.le_of_lt_succ hlt
    have hnn : (0 : Int) ≤ (index : Int) + offset := by omega
    have hub : (index : Int) + offset < 2 ^ 31 := by omega
    have hw : i32_wrap ((index : Int) + offset) = (index : Int) + offset :=
      i32_wrap_eq_self hnn hub
    have htm : Int.tmod ((index : Int) + offset) ((dictionaryWords.length : Nat) : Int) =
        ((index : Int) + offset) % 40 := by
      rw [hlen]
      exact Int.tmod_eq_emod hnn (by norm_num)
    have hmod0 : 0 ≤ ((index : Int) + offset) % 40 := Int.emod_nonneg _ (by norm_num)
    have hmod40 : ((index : Int) + offset) % 40 < 40 := Int.emod_lt_of_pos _ (by norm_num)
    have hus : usize_of_i32 (((index : Int) + offset) % 40) =
        (((index : Int) + offset) % 40).toNat := by
      unfold usize_of_i32
      rw [if_neg (by omega)]
    have hbound : (((index : Int) + offset) % 40).toNat < dictionaryWords.length := by
      rw [hlen]; omega
    refine ⟨dictionaryWords[(((index : Int) + offset) % 40).toNat], ?_⟩
    simp only [get_n_plus_word, hidx, hw, htm, hus]
    rw [List.getElem?_eq_getElem hbound]

theorem get_n_plus_word_unmatched (w : String) (offset : Int)
    (h : strToLower w ∉ dictionaryWords) :
    get_n_plus_word w offset = .ok (some (w ++ "+" ++ toString offset)) := by
  have hidx : List.findIdx? (fun x => x = strToLower w) dictionaryWords = none := by
    rw [List.findIdx?_eq_none_iff]
    intro x hx
    simp only [decide_eq_false_iff_not]
    intro he
    exact h (he ▸ hx)
  simp [get_n_plus_word, hidx]

theorem n_plus_7_words_ok (offset : Int)
    (h0 : 0 ≤ offset) (h1 : offset + 39 < 2 ^ 31) :
    ∀ ws : List String, ∃ imgs cnt,
      n_plus_7_words offset ws = .ok (imgs, cnt) ∧
      imgs.length = ws.length ∧
      ∀ (i : Nat) (w : String), ws[i]? = some w → strToLower w ∉ dictionaryWords →
        imgs[i]? = some (w ++ "+" ++ toString offset) := by
  intro ws
  induction ws with
  | nil =>
    refine ⟨([] : List String), 0, rfl, rfl, ?_⟩
    intro i w h
    simp at h
  | cons w ws ih =>
    obtain ⟨imgs, cnt, heq, hlen, hspec⟩ := ih
    obtain ⟨s, hs⟩ := get_n_plus_word_ok w offset h0 h1
    refine ⟨s :: imgs, cnt + 1, ?_, by simp [hlen], ?_⟩
    · show (n_plus_7_words offset ws).bind _ = _
      rw [heq]
      show (get_n_plus_word w offset).bind _ = _
      rw [hs]
      rfl
    · intro i v hi hv
      cases i with
      | zero =>
        simp only [List.getElem?_cons_zero, Option.some.injEq] at hi
        subst hi
        have ht := get_n_plus_word_unmatched w offset hv
        rw [ht] at hs
        injection hs with hs
        injection hs with hs
        simp [hs]
      | succ n =>
        simp only [List.getElem?_cons_succ] at hi ⊢
        exact hspec n v hi hv

theorem snowball_foldl_eq (ws : List String) :
    ∀ (n pos : Nat) (acc : List Violation),
      ((List.enumFrom n ws).foldl snowball_step (pos, acc)).2 =
        acc ++ snow_viols ws n pos := by
  induction ws with
  | nil => intro n pos acc; simp [snow_viols]
  | cons w ws ih =>
    intro n pos acc
    rw [List.enumFrom_cons, List.foldl_cons]
    have hstep : snowball_step (pos, acc) (n, w) =
        (pos + w.length + 1,
          acc ++ (if w.length ≠ n + 1 then [snowball_violation n pos w] else [])) := by
      by_cases h : w.length = n + 1 <;> simp [snowball_step, h]
    rw [hstep, ih]
    simp [snow_viols, List.append_assoc]

theorem filterMap_enumFrom_succ {β : Type} (g : Nat × String → Option β) :
    ∀ (l : List String) (k : Nat),
      (List.enumFrom (k + 1) l).filterMap g =
        (List.enumFrom k l).filterMap (fun p => g (p.1 + 1, p.2)) := by
  intro l
  induction l with
  | nil => intro k; rfl
  | cons w ws ih =>
    intro k
    simp only [List.enumFrom_cons, List.filterMap_cons]
    rw [ih (k + 1)]

theorem snow_viols_closed (ws : List String) :
    ∀ (n pos : Nat),
      snow_viols ws n pos =
        ws.enum.filterMap (fun p =>
          if p.2.length = n + p.1 + 1 then none
          else some (snowball_violation (n + p.1)
            (pos + ((ws.take p.1).map String.length).sum + p.1) p.2)) := by
  induction ws with
  | nil => intro n pos; rfl
  | cons w ws ih =>
    intro n pos
    rw [List.enum_cons, List.filterMap_cons, filterMap_enumFrom_succ,
        ← List.enum_eq_enumFrom]
    simp only [snow_viols]
    rw [ih (n + 1) (pos + w.length + 1)]
    have htail : ws.enum.filterMap
        (fun p => if p.2.length = n + 1 + p.1 + 1 then none
          else some (snowball_violation (n + 1 + p.1)
            (pos + w.length + 1 + ((ws.take p.1).map String.length).sum + p.1) p.2)) =
      ws.enum.filterMap
        (fun p => if p.2.length = n + (p.1 + 1) + 1 then none
          else some (snowball_violation (n + (p.1 + 1))
            (pos + (((w :: ws).take (p.1 + 1)).map String.length).sum + (p.1 + 1)) p.2)) := by
      apply List.filterMap_congr
      intro p _
      obtain ⟨i, u⟩ := p
      have e1 : n + 1 + i + 1 = n + (i + 1) + 1 := by omega
      have e2 : n + 1 + i = n + (i + 1) := by omega
      have e3 : pos + w.length + 1 + ((ws.take i).map String.length).sum + i
          = pos + (((w :: ws).take (i + 1)).map String.length).sum + (i + 1) := by
        rw [List.take_succ_cons]
        simp only [List.map_cons, List.sum_cons]
        omega
      simp only [e1, e2, e3]
    rw [htail]
    by_cases h : w.length = n + 1
    · simp [h]
    · simp [h]

/-- The violations of `snowball_check` in closed form: one violation per
word whose length differs from its 0-based index plus one, positioned at
the sum of the prior word lengths plus one separating space per prior
word. -/
theorem snowball_violations_closed (text : String) :
    (snowball_check text).violations =
      (splitWhitespace text).enum.filterMap (fun p =>
        if p.2.length = p.1 + 1 then none
        else some (snowball_violation p.1
          ((((splitWhitespace text).take p.1).map String.length).sum + p.1) p.2)) := by
  show ((splitWhitespace text).enum.foldl snowball_step (0, [])).2 = _
  rw [List.enum_eq_enumFrom, snowball_foldl_eq, snow_viols_closed]
  simp
  rw [← List.enum_eq_enumFrom]

theorem enumFrom_lengths_iff (ws : List String) :
    ∀ n : Nat, (∀ p ∈ List.enumFrom n ws, (p.2 : String).length = p.1 + 1) ↔
      ws.map String.length = List.range' (n + 1) ws.length := by
  induction ws with
  | nil => intro n; simp
  | cons w ws ih =>
    intro n
    rw [List.enumFrom_cons]
    simp only [List.mem_cons, List.map_cons, List.length_cons, List.range'_succ]
    constructor
    · intro h
      have h1 : w.length = n + 1 := h (n, w) (Or.inl rfl)
      have h2 : ∀ p ∈ List.enumFrom (n + 1) ws, p.2.length = p.1 + 1 :=
        fun p hp => h p (Or.inr hp)
      simp [h1, (ih (n + 1)).mp h2]
    · intro h
      have h1 : w.length = n + 1 := by
        have := congrArg (fun l => l.headD 0) h
        simpa using this
      have h2 : ws.map String.length = List.range' (n + 1 + 1) ws.length := by
        have := congrArg List.tail h
        simpa using this
      rintro p (rfl | hp)
      · exact h1
      · exact (ih (n + 1)).mpr h2 p hp

theorem wsSegments_sum_length (l : List Char) :
    ∀ cur : List Char,
      ((wsSegments l cur).map List.length).sum + (wsSegments l cur).length
        = l.length + cur.length + 1 := by
  induction l with
  | nil => intro cur; simp [wsSegments]
  | cons c cs ih =>
    intro cur
    by_cases h : c.isWhitespace
    · have h2 := ih []
      simp at h2
      simp [wsSegments, h]
      omega
    · have h2 := ih (c :: cur)
      simp at h2
      simp [wsSegments, h]
      omega

theorem filter_nonempty_sum_eq (L : List (List Char)) :
    ((L.filter (fun w => !w.isEmpty)).map List.length).sum
      = (L.map List.length).sum := by
  induction L with
  | nil => rfl
  | cons w L ih =>
    by_cases h : w.isEmpty
    · have hw : w = [] := List.isEmpty_iff.mp h
      subst hw
      simp [List.filter_cons, ih]
    · simp [List.filter_cons, h, ih]

/-- The words of a split, with one separator per boundary, never exceed
the original character list: total word length plus word count is at most
the text length plus one. -/
theorem split_sum_bound (l : List Char) :
    ((splitWS l).map List.length).sum + (splitWS l).length ≤ l.length + 1 := by
  unfold splitWS
  rw [filter_nonempty_sum_eq]
  have h1 := wsSegments_sum_length l []
  have h2 := List.length_filter_le (fun w => !w.isEmpty) (wsSegments l [])
  simp only [List.length_nil] at h1
  omega

/-- Any violation produced by a `char_indices` scan whose emitted records
sit at the scanned position with length 1 stays within the text. -/
theorem charscan_bound (text : String) (f : Nat × Char → Option Violation)
    (hf : ∀ p c viol, f (p, c) = some viol → viol.position = p ∧ viol.length = 1) :
    ∀ viol ∈ text.data.enum.filterMap f, viol.position + viol.length ≤ text.length := by
  intro viol hv
  rcases List.mem_filterMap.mp hv with ⟨⟨p, c⟩, hp, hfc⟩
  have hlt : p < text.data.length := by
    have h := List.mem_enum_iff_getElem?.mp hp
    exact (List.getElem?_eq_some.mp h).1
  obtain ⟨hpos, hlen⟩ := hf p c viol hfc
  have hT : text.length = text.data.length := rfl
  omega

/-! ## Claim theorems -/

/-- **C1.** For every text and every `ConstraintWorkflowConfig`,
`check_with_workflow` returns a `WorkflowResult` whose `success` field is
true iff every entry of `constraint_results` has `success = true`, and
whose `summary` string reports a failed count equal to the number of
entries with `success = false`. -/
theorem workflow_aggregation_correct (text : String) (cfg : ConstraintWorkflowConfig) :
    ((check_with_workflow text cfg).success = true ↔
      ∀ r ∈ (check_with_workflow text cfg).constraint_results, r.success = true) ∧
    ((check_with_workflow text cfg).summary =
      (let rs := (check_with_workflow text cfg).constraint_results
       let failed := (rs.filter (fun r => !r.success)).length
       let total := rs.length
       if failed = 0 then s!"✅ All {total} constraints satisfied"
       else s!"❌ {failed}/{total} constraints failed")) := by
  exact ⟨List.all_eq_true, generate_workflow_summary_spec _⟩

theorem workflow_aggregation_correct_witness :
    ((check_with_workflow "abc" ⟨[("nope", Json.null)], ⟨none, none, none, none⟩⟩).success = true ↔
      ∀ r ∈ (check_with_workflow "abc"
        ⟨[("nope", Json.null)], ⟨none, none, none, none⟩⟩).constraint_results,
        r.success = true) ∧
    ((check_with_workflow "abc" ⟨[("nope", Json.null)], ⟨none, none, none, none⟩⟩).summary =
      (let rs := (check_with_workflow "abc"
        ⟨[("nope", Json.null)], ⟨none, none, none, none⟩⟩).constraint_results
       let failed := (rs.filter (fun r => !r.success)).length
       let total := rs.length
       if failed = 0 then s!"✅ All {total} constraints satisfied"
       else s!"❌ {failed}/{total} constraints failed")) :=
  workflow_aggregation_correct "abc" ⟨[("nope", Json.null)], ⟨none, none, none, none⟩⟩

/-- **C2, counterexample.** The claim says a set `max_length` is enforced
regardless of whether `min_length` is set. On the code, with
`min_length = none` and `max_length = some 1`, the text `"ab"` of length 2
exceeds the bound yet `check_with_workflow` emits no length-validation
result at all and reports overall success. -/
theorem validation_max_only_ignored_cex :
    ("ab" : String).length = 2 ∧
    (check_with_workflow "ab" ⟨[], ⟨none, some 1, none, none⟩⟩).constraint_results = [] ∧
    (check_with_workflow "ab" ⟨[], ⟨none, some 1, none, none⟩⟩).success = true :=
  ⟨rfl, rfl, rfl⟩

/-- **C2, amended.** `max_length` is enforced only when `min_length` is
also set: in that case `check_with_workflow` includes a length-validation
result that fails when the text's length exceeds `max_length`. When
`min_length` is unset (and `min_words` is unset) no validation result is
produced at all, so `max_length`/`max_words` are silently ignored. -/
theorem validation_max_enforced_when_min_set :
    (∀ (text : String) (cfg : ConstraintWorkflowConfig) (m maxL : Nat),
      cfg.validation_config.min_length = some m →
      cfg.validation_config.max_length = some maxL →
      maxL < text.length →
      validate_text_length text m (some maxL) ∈
        (check_with_workflow text cfg).constraint_results ∧
      (validate_text_length text m (some maxL)).success = false) ∧
    (∀ (text : String) (cfg : ConstraintWorkflowConfig),
      cfg.validation_config.min_length = none →
      cfg.validation_config.min_words = none →
      (check_with_workflow text cfg).constraint_results =
        cfg.constraints.map (fun nc => check_workflow_entry text nc.1 nc.2)) := by
  constructor
  · intro text cfg m maxL h1 h2 h3
    constructor
    · refine List.mem_append_right _ ?_
      unfold validate_with_config
      rw [h1, h2]
      exact List.mem_append_left _ (List.mem_singleton_self _)
    · have h3' : text.length > maxL := h3
      simp only [validate_text_length, h3', if_true, gt_iff_lt, if_pos h3]
      simp [List.isEmpty_iff]
  · intro text cfg h1 h2
    simp [check_with_workflow, validate_with_config, h1, h2]

theorem validation_max_enforced_when_min_set_witness :
    (validate_text_length "abc" 0 (some 1) ∈
      (check_with_workflow "abc" ⟨[], ⟨some 0, some 1, none, none⟩⟩).constraint_results ∧
     (validate_text_length "abc" 0 (some 1)).success = false) ∧
    (check_with_workflow "xyz" ⟨[], ⟨none, some 5, none, some 2⟩⟩).constraint_results =
      ([] : List (String × Json)).map (fun nc => check_workflow_entry "xyz" nc.1 nc.2) :=
  ⟨validation_max_enforced_when_min_set.1 "abc"
      ⟨[], ⟨some 0, some 1, none, none⟩⟩ 0 1 rfl rfl (by decide),
   validation_max_enforced_when_min_set.2 "xyz"
      ⟨[], ⟨none, some 5, none, some 2⟩⟩ rfl rfl⟩

/-- **C3, counterexample.** The claim says a word not found in the fixed
vocabulary appears unchanged (verbatim) in the transformed output. On the
code, the dictionary returns `"{word}+{offset}"` for an unmatched word, so
`"zebra"` with offset 7 becomes `"zebra+7"`, not `"zebra"`. -/
theorem n_plus_7_unmatched_not_verbatim_cex :
    strToLower "zebra" ∉ dictionaryWords ∧
    (n_plus_7_transform "zebra" 7).map (fun r => r.result) = .ok (some "zebra+7") ∧
    "zebra+7" ≠ "zebra" :=
  ⟨by decide, rfl, by decide⟩

/-- **C3, amended.** For every text and every offset in the range where
the index arithmetic cannot go out of bounds (`0 ≤ offset` and
`offset + 39 < 2^31`), the N+7 transform returns a result with
`success = true` and empty violations, and every whitespace-delimited word
that is not found in the fixed vocabulary appears at its place in the
transformed output *tagged* as `word+offset` (not verbatim). -/
theorem n_plus_7_tags_unmatched_words (text : String) (offset : Int)
    (h0 : 0 ≤ offset) (h1 : offset + 39 < 2 ^ 31) :
    ∃ (r : ConstraintResult) (imgs : List String),
      n_plus_7_transform text offset = .ok r ∧
      r.success = true ∧ r.violations = [] ∧
      r.result = some (String.intercalate " " imgs) ∧
      imgs.length = (splitWhitespace text).length ∧
      ∀ (i : Nat) (w : String), (splitWhitespace text)[i]? = some w →
        strToLower w ∉ dictionaryWords →
        imgs[i]? = some (w ++ "+" ++ toString offset) := by
  obtain ⟨imgs, cnt, heq, hlen, hspec⟩ :=
    n_plus_7_words_ok offset h0 h1 (splitWhitespace text)
  refine ⟨{ success := true,
            result := some (String.intercalate " " imgs),
            violations := [],
            suggestions := [ "Try different offset values for varied results",
                             "Focus on noun-heavy text for better transformation" ],
            metadata := .obj [("offset", .num offset),
                              ("original_words", .num (splitWhitespace text).length),
                              ("replacements_made", .num cnt)] },
         imgs, ?_, rfl, rfl, rfl, hlen, hspec⟩
  show (n_plus_7_words offset (splitWhitespace text)).bind _ = _
  rw [heq]
  rfl

theorem n_plus_7_tags_unmatched_words_witness :
    ∃ (r : ConstraintResult) (imgs : List String),
      n_plus_7_transform "zebra the" 7 = .ok r ∧
      r.success = true ∧ r.violations = [] ∧
      r.result = some (String.intercalate " " imgs) ∧
      imgs.length = (splitWhitespace "zebra the").length ∧
      ∀ (i : Nat) (w : String), (splitWhitespace "zebra the")[i]? = some w →
        strToLower w ∉ dictionaryWords →
        imgs[i]? = some (w ++ "+" ++ toString (7 : Int)) :=
  n_plus_7_tags_unmatched_words "zebra the" 7 (by decide) (by decide)

/-- **C4.** Registry round-trip: `create_constraint("univocalic", config)`
with a valid `allowed_vowel` config, followed by `.check(text)`, produces
exactly the `ConstraintResult` of the free function `univocalic::check`
with the same vowel. -/
theorem registry_round_trip_univocalic (text : String) (v : Char)
    (hv : is_vowel v = true) :
    (create_constraint "univocalic"
        (Json.obj [("allowed_vowel", Json.str (String.mk [v]))])).map
      (fun c => c.check text) = .ok (univocalic_check text v) := by
  simp [create_constraint, UnivocalicFactory.create, Json.index, Json.asStr,
        UnivocalicConstraint.new, hv, ConstraintInst.check, univocalic_check,
        Except.map]

theorem registry_round_trip_univocalic_witness :
    is_vowel 'a' = true ∧
    (create_constraint "univocalic"
        (Json.obj [("allowed_vowel", Json.str (String.mk ['a']))])).map
      (fun c => c.check "a cat") = .ok (univocalic_check "a cat" 'a') :=
  ⟨by decide, registry_round_trip_univocalic "a cat" 'a' (by decide)⟩

/-- **C5.** A constraint entry with an unrecognized name yields exactly one
synthetic failing `ConstraintResult` at its position in the result list,
and the remaining entries and the validation checks are still evaluated:
the result list always has one entry per configured constraint followed by
all validation results (the embedding is a total function — the source
never returns an error from this path). -/
theorem workflow_unknown_name_degrades (text : String) (cfg : ConstraintWorkflowConfig)
    (i : Nat) (name : String) (jcfg : Json)
    (h : cfg.constraints[i]? = some (name, jcfg)) (hn : name ≠ "univocalic") :
    (check_with_workflow text cfg).constraint_results[i]? =
      some (unknown_constraint_result name) ∧
    (check_with_workflow text cfg).constraint_results.length =
      cfg.constraints.length +
        (validate_with_config text cfg.validation_config).length := by
  have hi : i < cfg.constraints.length := by
    rcases List.getElem?_eq_some.mp h with ⟨hlt, _⟩
    exact hlt
  constructor
  · show (cfg.constraints.map _ ++ _)[i]? = _
    rw [List.getElem?_append]
    rw [if_pos (by simpa using hi), List.getElem?_map, h]
    simp [check_workflow_entry, hn]
  · simp [check_with_workflow]

theorem workflow_unknown_name_degrades_witness :
    (check_with_workflow "hi"
      ⟨[("nope", Json.null)], ⟨none, none, none, none⟩⟩).constraint_results[0]? =
      some (unknown_constraint_result "nope") ∧
    (check_with_workflow "hi"
      ⟨[("nope", Json.null)], ⟨none, none, none, none⟩⟩).constraint_results.length =
      ([("nope", Json.null)] : List (String × Json)).length +
        (validate_with_config "hi" ⟨none, none, none, none⟩).length :=
  workflow_unknown_name_degrades "hi" ⟨[("nope", Json.null)], ⟨none, none, none, none⟩⟩
    0 "nope" Json.null rfl (by decide)

/-- **C6.** Constructing a `UnivocalicConstraint` with a non-vowel fails
with `InvalidConfig` at construction time, before any text is checked;
construction with a vowel succeeds. The univocalic factory is the only
factory the registry registers, so no other constraint's setup can fail. -/
theorem univocalic_construction_fails_iff_nonvowel (c : Char) :
    (is_vowel c = false →
      UnivocalicConstraint.new c =
        .error (.InvalidConfig s!"\x27{c}\x27 is not a valid vowel")) ∧
    (is_vowel c = true → UnivocalicConstraint.new c = .ok c) ∧
    registry_registered_names = ["univocalic"] := by
  refine ⟨fun h => ?_, fun h => ?_, rfl⟩ <;> simp [UnivocalicConstraint.new, h]

theorem univocalic_construction_fails_iff_nonvowel_witness :
    (is_vowel 'x' = false ∧
      UnivocalicConstraint.new 'x' =
        .error (.InvalidConfig "\x27x\x27 is not a valid vowel")) ∧
    (is_vowel 'a' = true ∧ UnivocalicConstraint.new 'a' = .ok 'a') :=
  ⟨⟨by decide, (univocalic_construction_fails_iff_nonvowel 'x').1 (by decide)⟩,
   ⟨by decide, (univocalic_construction_fails_iff_nonvowel 'a').2.1 (by decide)⟩⟩

/-- **C9.** `get_n_plus_word` is not total over all offsets: the word
`"the"` sits at vocabulary index 0, and with offset `-7` the Rust
computation `((0 + -7) % 40) as usize` yields `2^64 - 7`, an out-of-bounds
vocabulary index, so the lookup panics and the N+7 transform aborts
instead of returning a result. -/
theorem n_plus_7_negative_offset_panics :
    "the" ∈ dictionaryWords ∧ (-7 : Int) < 0 ∧
    get_n_plus_word "the" (-7) =
      .error "index out of bounds: 18446744073709551609" ∧
    n_plus_7_transform "the" (-7) =
      .error "index out of bounds: 18446744073709551609" :=
  ⟨by decide, by decide, rfl, rfl⟩

/-- **C10.** In `check_with_workflow`, a `"univocalic"` entry whose config
has no usable `allowed_vowel` (missing field, non-string, or empty string)
is silently checked with the default vowel `'a'` — no configuration error
and no synthetic failure — while the registry path rejects the same config
with `InvalidConfig`. -/
theorem workflow_univocalic_missing_vowel_defaults (text : String) (cfg : Json)
    (h : ((cfg.index "allowed_vowel").asStr.bind (fun s => s.data.head?)) = none) :
    check_workflow_entry text "univocalic" cfg = check_univocalic text 'a' ∧
    create_constraint "univocalic" cfg =
      .error (.InvalidConfig "Missing \x27allowed_vowel\x27 in config") := by
  constructor
  · simp [check_workflow_entry, h, service_check_univocalic, univocalic_check]
  · simp [create_constraint, UnivocalicFactory.create, h]

theorem workflow_univocalic_missing_vowel_defaults_witness :
    check_workflow_entry "abc" "univocalic" (Json.obj []) = check_univocalic "abc" 'a' ∧
    create_constraint "univocalic" (Json.obj []) =
      .error (.InvalidConfig "Missing \x27allowed_vowel\x27 in config") :=
  workflow_univocalic_missing_vowel_defaults "abc" (Json.obj []) rfl

/-- **C7.** The snowball check succeeds iff splitting the text on
whitespace yields words whose lengths are exactly `1, 2, 3, ..., n` in
order; each word whose length differs from its expected length `i + 1`
yields one violation positioned at the sum of the prior word lengths plus
one separating space per prior word, with `length` equal to that word's
length (see `snowball_violation`). -/
theorem snowball_success_iff_and_violations (text : String) :
    ((snowball_check text).success = true ↔
      (splitWhitespace text).map String.length =
        List.range' 1 (splitWhitespace text).length) ∧
    (snowball_check text).violations =
      (splitWhitespace text).enum.filterMap (fun p =>
        if p.2.length = p.1 + 1 then none
        else some (snowball_violation p.1
          ((((splitWhitespace text).take p.1).map String.length).sum + p.1) p.2)) := by
  refine ⟨?_, snowball_violations_closed text⟩
  show ((splitWhitespace text).enum.foldl snowball_step (0, [])).2.isEmpty = true ↔ _
  have hv := snowball_violations_closed text
  rw [show ((splitWhitespace text).enum.foldl snowball_step (0, [])).2 =
      (snowball_check text).violations from rfl, hv]
  rw [List.isEmpty_iff, List.filterMap_eq_nil_iff]
  have hnone : ∀ p : Nat × String,
      ((if p.2.length = p.1 + 1 then (none : Option Violation)
        else some (snowball_violation p.1
          ((((splitWhitespace text).take p.1).map String.length).sum + p.1) p.2)) = none)
        ↔ p.2.length = p.1 + 1 := by
    intro p
    split
    · simp_all
    · simp_all
  simp only [hnone]
  rw [List.enum_eq_enumFrom]
  simpa using enumFrom_lengths_iff (splitWhitespace text) 0

theorem snowball_success_iff_and_violations_witness :
    (((snowball_check "I am cats").success = true ↔
      (splitWhitespace "I am cats").map String.length =
        List.range' 1 (splitWhitespace "I am cats").length) ∧
    (snowball_check "I am cats").violations =
      (splitWhitespace "I am cats").enum.filterMap (fun p =>
        if p.2.length = p.1 + 1 then none
        else some (snowball_violation p.1
          ((((splitWhitespace "I am cats").take p.1).map String.length).sum + p.1) p.2))) :=
  snowball_success_iff_and_violations "I am cats"

/-- **C8.** Every violation emitted by the per-character scans (lipogram,
univocalic, prisoner's constraint) and by the per-word snowball check
satisfies `position + length ≤ text length`. -/
theorem violation_spans_within_text (text : String) (forbidden_letter : String)
    (v : Char) :
    (∀ viol ∈ (lipogram_check text forbidden_letter).violations,
      viol.position + viol.length ≤ text.length) ∧
    (∀ viol ∈ (check_univocalic text v).violations,
      viol.position + viol.length ≤ text.length) ∧
    (∀ viol ∈ (prisoners_check text).violations,
      viol.position + viol.length ≤ text.length) ∧
    (∀ viol ∈ (snowball_check text).violations,
      viol.position + viol.length ≤ text.length) := by
  refine ⟨?_, ?_, ?_, ?_⟩
  · apply charscan_bound
    intro p c viol h
    dsimp only at h
    split at h
    · injection h with h
      subst h
      exact ⟨rfl, rfl⟩
    · exact absurd h (by simp)
  · apply charscan_bound
    intro p c viol h
    dsimp only at h
    split at h
    · split at h
      · injection h with h
        subst h
        exact ⟨rfl, rfl⟩
      · exact absurd h (by simp)
    · exact absurd h (by simp)
  · apply charscan_bound
    intro p c viol h
    dsimp only at h
    split at h
    · split at h
      · injection h with h
        subst h
        exact ⟨rfl, rfl⟩
      · exact absurd h (by simp)
    · exact absurd h (by simp)
  · intro viol hv
    rw [snowball_violations_closed] at hv
    rcases List.mem_filterMap.mp hv with ⟨⟨i, w⟩, hp, hf⟩
    split at hf
    · exact absurd hf (by simp)
    · injection hf with hf
      have hpos : viol.position =
          (((splitWhitespace text).take i).map String.length).sum + i := by
        rw [← hf]; rfl
      have hlen : viol.length = w.length := by
        rw [← hf]; rfl
      have hget : (splitWhitespace text)[i]? = some w :=
        List.mem_enum_iff_getElem?.mp hp
      obtain ⟨hi, hgi⟩ := List.getElem?_eq_some.mp hget
      have hsum : (((splitWhitespace text).take i).map String.length).sum + w.length ≤
          ((splitWhitespace text).map String.length).sum := by
        conv_rhs => rw [← List.take_append_drop i (splitWhitespace text)]
        rw [List.map_append, List.sum_append]
        have hdrop : (splitWhitespace text).drop i =
            w :: (splitWhitespace text).drop (i + 1) := by
          rw [List.drop_eq_getElem_cons hi, hgi]
        rw [hdrop]
        simp
      have hkey : ((splitWhitespace text).map String.length).sum +
          (splitWhitespace text).length ≤ text.length + 1 := by
        unfold splitWhitespace
        rw [List.map_map, List.length_map]
        have hcomp : (String.length ∘ fun w => String.mk w) = List.length :=
          funext fun l => rfl
        rw [hcomp]
        exact split_sum_bound text.data
      omega

theorem violation_spans_within_text_witness :
    (∀ viol ∈ (lipogram_check "dog" "d").violations,
      viol.position + viol.length ≤ ("dog" : String).length) ∧
    (∀ viol ∈ (check_univocalic "dog" 'e').violations,
      viol.position + viol.length ≤ ("dog" : String).length) ∧
    (∀ viol ∈ (prisoners_check "dog").violations,
      viol.position + viol.length ≤ ("dog" : String).length) ∧
    (∀ viol ∈ (snowball_check "dog").violations,
      viol.position + viol.length ≤ ("dog" : String).length) :=
  violation_spans_within_text "dog" "d" 'e'

end Oulipo
